import Mathlib

/-!
Verification development for the static route & schema extraction engine of
the hono-autopenai repository.  The definitions below are a shallow embedding
of the TypeScript sources:

* `src/src/analyzer.ts`   — AST pattern matcher, response extractor, and the
  recursive type-to-schema synthesizer (`typeToSchema`, `findResponses`,
  `extractStatuses`, `findExplicitContentType`, `analyzeSource`, …);
* `src/schema.ts` (shipped inside the example bundle) — `typeTextToSchema`,
  `routesToOpenAPI`, `toOpenApiPath`;
* `src/src/autorouter.ts` — `computeAutorouterPath`, `isMethodFile`,
  `convertSegment`;
* `src/src/autoroutes.ts` — `findMiddlewareScopes`.

Modelling conventions:

* The TypeScript type checker ("type oracle") is embedded as a finite graph of
  semantic types: a `TypeDef` environment `Nat → TypeDef`, where unions,
  array element types and object properties refer to other types by index.
  Expressions in value position carry their semantic type through the
  `TsNode.typedVal` annotation; string/number literals have their literal
  types built in.  Expressions without a modelled type fall to the engine's
  fallback paths exactly like a type the checker cannot classify.
* JavaScript's mutable `Set` that `typeToSchema` threads through its recursion
  is modelled by explicit state passing; JS mutation makes the set persist
  across sibling branches, and the model threads it accordingly.
* `typeToSchema` has no termination guarantee in the source (only object
  expansion is guarded), hence the embedding is fuel-indexed and returns
  `none` when the recursion-depth budget is exhausted.
* Plain JS objects used as string-keyed maps (`paths`, `responses`,
  `properties`) are modelled as association lists with JavaScript's
  assignment semantics: assigning to an existing key replaces the value in
  place (keeping the key's insertion position), otherwise appends.
* `JSON.stringify`-based deduplication of union variants is modelled by a
  serialization function `JSchema.ser` that is injective on the schema shapes
  the engine produces, so string comparison agrees with structural equality.
-/

/-- Schema trees as produced by the engine: plain JSON objects of the shapes
`{type}`, `{type, format}`, `{description}`, `{anyOf}`, `{type: array, items}`,
`{type: object, properties, required?}`, `{type: object, additionalProperties}`
and the bare `{}` / `{nullable: true}` shapes, each optionally carrying
`nullable: true`.  An empty `required` list models the absent key (the source
only attaches `required` when non-empty). -/
inductive JSchema where
  | prim (kind : String) (format : Option String) (nullable : Bool)
  | descr (text : String) (nullable : Bool)
  | arr (items : JSchema) (nullable : Bool)
  | anyOf (variants : List JSchema) (nullable : Bool)
  | obj (properties : List (String × JSchema)) (required : List String) (nullable : Bool)
  | objAdd (additional : JSchema) (nullable : Bool)
  | emptyS (nullable : Bool)

/-- `s.nullable = true` — the JS mutation performed by the union branch of
`typeToSchema`. -/
def setNullable : JSchema → JSchema
  | .prim k f _ => .prim k f true
  | .descr t _ => .descr t true
  | .arr i _ => .arr i true
  | .anyOf v _ => .anyOf v true
  | .obj p r _ => .obj p r true
  | .objAdd a _ => .objAdd a true
  | .emptyS _ => .emptyS true

mutual
/-- Model of `JSON.stringify` on schema values, used (only) for the
serialize-and-compare deduplication of union variants.  Injective on schema
trees, so comparison of serializations coincides with structural equality. -/
def JSchema.ser : JSchema → String
  | .prim k f nb =>
      "(prim " ++ k ++ " " ++ (match f with | none => "-" | some s => "f:" ++ s)
        ++ " " ++ (if nb then "n" else "-") ++ ")"
  | .descr t nb => "(descr " ++ t ++ " " ++ (if nb then "n" else "-") ++ ")"
  | .arr i nb => "(arr " ++ JSchema.ser i ++ " " ++ (if nb then "n" else "-") ++ ")"
  | .anyOf v nb => "(anyOf " ++ JSchema.serList v ++ " " ++ (if nb then "n" else "-") ++ ")"
  | .obj p r nb =>
      "(obj " ++ JSchema.serProps p ++ " req:" ++ String.intercalate "," r
        ++ " " ++ (if nb then "n" else "-") ++ ")"
  | .objAdd a nb => "(objAdd " ++ JSchema.ser a ++ " " ++ (if nb then "n" else "-") ++ ")"
  | .emptyS nb => "(empty " ++ (if nb then "n" else "-") ++ ")"

def JSchema.serList : List JSchema → String
  | [] => ""
  | s :: rest => JSchema.ser s ++ ";" ++ JSchema.serList rest

def JSchema.serProps : List (String × JSchema) → String
  | [] => ""
  | (n, s) :: rest => n ++ ":" ++ JSchema.ser s ++ ";" ++ JSchema.serProps rest
end

/-- The `uniq` loop of the union branch: keep the first occurrence of each
serialization (`JSON.stringify`) key, in order. -/
def dedupBySer (l : List JSchema) : List JSchema :=
  (l.foldl
    (fun (acc : List JSchema × List String) s =>
      let key := JSchema.ser s
      if acc.2.contains key then acc else (acc.1 ++ [s], acc.2 ++ [key]))
    ([], [])).1

/-! Character-level models of the JavaScript string primitives the engine
uses (`split`, `trim`, `toLowerCase`, `startsWith`, `endsWith`, substring
test), written structurally over the character list of a string so that
concrete runs reduce definitionally.  Whitespace is the ASCII fragment of JS
`\\s`. -/

def isWsChar (c : Char) : Bool :=
  c = ' ' || c = '\t' || c = '\n' || c = '\r' || c = '\x0c' || c = '\x0b'

def toLowerS (s : String) : String := String.mk (s.data.map Char.toLower)

def startsWithS (s pat : String) : Bool := pat.data.isPrefixOf s.data

def endsWithS (s pat : String) : Bool := pat.data.isSuffixOf s.data

/-- JS `s.trim()` (ASCII whitespace). -/
def trimS (s : String) : String :=
  String.mk (((s.data.dropWhile isWsChar).reverse.dropWhile isWsChar).reverse)

def splitCharGo (c : Char) (cur : List Char) : List Char → List String
  | [] => [String.mk cur.reverse]
  | x :: rest =>
    if x = c then String.mk cur.reverse :: splitCharGo c [] rest
    else splitCharGo c (x :: cur) rest

/-- JS `s.split(sep)` for a one-character separator. -/
def splitChar (c : Char) (s : String) : List String := splitCharGo c [] s.data

def hasSubList (pat : List Char) : List Char → Bool
  | [] => pat.isPrefixOf []
  | c :: rest => pat.isPrefixOf (c :: rest) || hasSubList pat rest

/-- Semantic types as reported by the type oracle.  Unions, array element
types and object properties reference other types by index into a
`TypeEnv`.  An object property is `(name, hasQuestionToken, type)`.
`nullish` covers the `undefined`/`null` flags (its display text is kept for
the fallback path); `other` is any type none of the engine's classifiers
match, carrying its display text. -/
inductive TypeDef where
  | str
  | strLitT (s : String)
  | num
  | numLitT (v : Int)
  | boolean
  | nullish (txt : String)
  | union (members : List Nat)
  | arrT (elem : Nat)
  | objT (props : List (String × Bool × Nat))
  | other (txt : String)

abbrev TypeEnv := Nat → TypeDef

/-- `(t.flags & (Undefined | Null)) !== 0`. -/
def TypeDef.isNullish : TypeDef → Bool
  | .nullish _ => true
  | _ => false

/-- `isStringType`: the `String | StringLike` flag test. -/
def TypeDef.isStringLike : TypeDef → Bool
  | .str => true
  | .strLitT _ => true
  | _ => false

/-- `isNumberType`: the `Number | NumberLike` flag test. -/
def TypeDef.isNumberLike : TypeDef → Bool
  | .num => true
  | .numLitT _ => true
  | _ => false

/-- Display text of a type (`checker.typeToString`), as far as the modelled
oracle reports it. -/
def typeDisplay (env : TypeEnv) (t : Nat) : String :=
  match env t with
  | .str => "string"
  | .strLitT s => "\"" ++ s ++ "\""
  | .num => "number"
  | .numLitT v => toString v
  | .boolean => "boolean"
  | .nullish s => s
  | .union _ => "union"
  | .arrT _ => "T[]"
  | .objT _ => "object"
  | .other s => s

/-- `typeToSchema(checker, type, seen)` from `src/src/analyzer.ts`.  The
`seen` set of the source is a single mutable JS `Set` threaded through every
recursive call (union members, array elements and object properties all share
it, and nothing is ever removed from it); the model passes it through the
recursion and returns the updated set.  The source has no fuel: recursion
depth is bounded only by the cycle guard of the object branch, so the model
is fuel-indexed and yields `none` when the depth budget is exhausted (which
on some cyclic type graphs happens for every budget). -/
def typeToSchemaF (env : TypeEnv) (fuel : Nat) (t : Nat) (seen : List Nat) :
    Option (JSchema × List Nat) :=
  match fuel with
  | 0 => none
  | fu + 1 =>
    match env t with
    | .union ms =>
      let nullish := ms.any fun i => (env i).isNullish
      let nonNullish := ms.filter fun i => !(env i).isNullish
      match nonNullish with
      | [only] =>
        match typeToSchemaF env fu only seen with
        | none => none
        | some (s, seen') => some ((if nullish then setNullable s else s), seen')
      | _ =>
        let folded := nonNullish.foldl
          (fun (acc : Option (List JSchema × List Nat)) i =>
            match acc with
            | none => none
            | some (ss, sn) =>
              match typeToSchemaF env fu i sn with
              | none => none
              | some (s, sn') => some (ss ++ [s], sn'))
          (some ([], seen))
        match folded with
        | none => none
        | some (ss, sn) => some (.anyOf (dedupBySer ss) nullish, sn)
    | .str => some (.prim "string" none false, seen)
    | .strLitT _ => some (.prim "string" none false, seen)
    | .num => some (.prim "number" none false, seen)
    | .numLitT _ => some (.prim "number" none false, seen)
    | .boolean => some (.prim "boolean" none false, seen)
    | .arrT elem =>
      match typeToSchemaF env fu elem seen with
      | none => none
      | some (s, seen') => some (.arr s false, seen')
    | .objT props =>
      if seen.contains t then some (.descr "...recursive..." false, seen)
      else
        let seen1 := t :: seen
        let folded := props.foldl
          (fun (acc : Option (List (String × JSchema) × List String × List Nat))
               (p : String × Bool × Nat) =>
            match acc with
            | none => none
            | some (properties, required, sn) =>
              match typeToSchemaF env fu p.2.2 sn with
              | none => none
              | some (s, sn') =>
                some (properties ++ [(p.1, s)],
                      (if p.2.1 then required else required ++ [p.1]), sn'))
          (some ([], [], seen1))
        match folded with
        | none => none
        | some (properties, required, sn) => some (.obj properties required false, sn)
    | .nullish txt => some (.descr ("Unparsed type: " ++ txt) false, seen)
    | .other txt => some (.descr ("Unparsed type: " ++ txt) false, seen)

/-- Top-level entry `typeToSchema(checker, type)` — fresh empty `seen` set. -/
def typeToSchemaTop (env : TypeEnv) (fuel : Nat) (t : Nat) : Option JSchema :=
  (typeToSchemaF env fuel t []).map Prod.fst

/-- Embedded TypeScript syntax nodes — the node shapes the analyzer's
recognizers inspect.  `typedVal t` is an arbitrary expression whose semantic
type (as reported by the type oracle) is `t`; literals carry their literal
types implicitly.  `arrow` is an arrow function / function expression with an
optional first-parameter identifier and a block body (a list of statements);
`ret` is a return statement.  The embedded syntax has no variable
declarations or `await` expressions, so the declaration-based request-data
patterns of `findRequestData` are not representable (see there). -/
inductive TsNode where
  | ident (name : String)
  | strLit (text : String)
  | numLit (n : Nat)
  | prop (obj : TsNode) (name : String)
  | call (callee : TsNode) (args : List TsNode)
  | newE (calleeText : String) (args : List TsNode)
  | objLit (props : List (String × TsNode))
  | arrow (param : Option String) (body : List TsNode)
  | ret (e : Option TsNode)
  | paren (e : TsNode)
  | asCast (e : TsNode)
  | nonNull (e : TsNode)
  | typedVal (t : Nat)

mutual
/-- The single depth-first traversal the analyzer's visitors perform
(`visit(node)` then `ts.forEachChild(node, visit)`): every visited node in
document order — a node first, then the preorders of its children in syntax
order.  (Leaf identifiers serving as member names are never call expressions
and are omitted; they cannot affect any recognizer.) -/
def preorder : TsNode → List TsNode
  | .ident s => [.ident s]
  | .strLit s => [.strLit s]
  | .numLit n => [.numLit n]
  | .typedVal t => [.typedVal t]
  | .prop o nm => .prop o nm :: preorder o
  | .call f args => .call f args :: (preorder f ++ preorderL args)
  | .newE nm args => .newE nm args :: preorderL args
  | .objLit props => .objLit props :: preorderP props
  | .arrow p body => .arrow p body :: preorderL body
  | .ret (some e) => .ret (some e) :: preorder e
  | .ret none => [.ret none]
  | .paren e => .paren e :: preorder e
  | .asCast e => .asCast e :: preorder e
  | .nonNull e => .nonNull e :: preorder e

def preorderL : List TsNode → List TsNode
  | [] => []
  | n :: rest => preorder n ++ preorderL rest

def preorderP : List (String × TsNode) → List TsNode
  | [] => []
  | p :: rest => preorder p.2 ++ preorderP rest
end

/-- `ts.forEachChild(root, visit)` with a recursive visitor: the traversal
starts at the children of `root` (a block body or a source file), so the
visited nodes are the preorders of the child forest. -/
def preorderList (l : List TsNode) : List TsNode :=
  preorderL l

/-- `stripParensAndCasts` — peel parentheses, `as` casts, type assertions and
non-null assertions. -/
def stripParensAndCasts : TsNode → TsNode
  | .paren e => stripParensAndCasts e
  | .asCast e => stripParensAndCasts e
  | .nonNull e => stripParensAndCasts e
  | e => e

/-- The fixed HTTP method-name set of `isHonoRouteCall` (and of
`isMethodFile` in `autorouter.ts`). -/
def httpMethodNames : List String := ["get", "post", "put", "patch", "delete", "options", "head"]

/-- `isHonoRouteCall`: a call expression whose callee is a property access
with a member name in the fixed method set, and whose first argument is a
string literal; yields the method name and the literal's text. -/
def routeCallOf : TsNode → Option (String × String)
  | .call (.prop _ name) args =>
    if httpMethodNames.contains name then
      match args with
      | .strLit p :: _ => some (name, p)
      | _ => none
    else none
  | _ => none

/-- Analysis context: the modelled external oracles of the engine.
`env` is the semantic type graph; `enumV` resolves `Enum.Member` property
accesses to numeric enum-member initializers (`tryGetEnumMemberValue`);
`varInit` resolves an identifier to its variable-declaration initializer
(`resolveIdentifierToInit`); `fuel` bounds the depth of the unbounded
recursions of the source (`typeToSchema`, identifier-chain resolution). -/
structure ACtx where
  env : TypeEnv
  enumV : String → String → Option Int
  varInit : String → Option TsNode
  fuel : Nat

/-- `resolveToStringLiteralText`: follow parens/casts and identifier
initializers to a string literal's text.  The source's cycle-breaking `seen`
set is modelled by fuel; template literals are string-literal-like and fold
into `strLit`; the checker-based literal-type fallback for initializer-less
identifiers is outside the modelled oracle and yields `none`. -/
def resolveGo (ctx : ACtx) : Nat → TsNode → Option String
  | 0, _ => none
  | f + 1, e =>
    match stripParensAndCasts e with
    | .strLit s => some s
    | .ident x =>
      match ctx.varInit x with
      | some init => resolveGo ctx f init
      | none => none
    | _ => none

def resolveToStringLiteralText (ctx : ACtx) (e : TsNode) : Option String :=
  resolveGo ctx ctx.fuel e

/-- One step of `findExplicitContentType`'s visitor: the value this node
contributes, i.e. the resolved string of a `<ctx>.header('content-type', v)`
call (the empty string is falsy in JS and never recorded). -/
def ectOfNode (ctx : ACtx) (pname : Option String) : TsNode → Option String
  | .call (.prop base nm) args =>
    if nm = "header" then
      let ok := match pname with
        | none => true
        | some pn => match base with | .ident b => b = pn | _ => false
      if ok then
        match args.get? 0, args.get? 1 with
        | some k, some v =>
          match k with
          | .strLit kt =>
            if toLowerS kt = "content-type" then
              match resolveToStringLiteralText ctx v with
              | some s => if s = "" then none else some s
              | none => none
            else none
          | _ => none
        | _, _ => none
      else none
    else none
  | _ => none

/-- `findExplicitContentType`: full traversal of the handler body; every
matching header call overwrites `found`, so the last resolvable one in
document order wins. -/
def findExplicitContentType (ctx : ACtx) (body : List TsNode) (pname : Option String) :
    Option String :=
  ((preorderList body).filterMap (ectOfNode ctx pname)).getLast?

/-- The modelled `checker.getTypeAtLocation` on value expressions: the type
annotation of the expression, looked through parens and casts.  Expressions
the model does not annotate have no oracle type. -/
def typeIdOf : TsNode → Option Nat
  | .typedVal t => some t
  | .paren e => typeIdOf e
  | .asCast e => typeIdOf e
  | .nonNull e => typeIdOf e
  | _ => none

/-- `checker.typeToString(checker.getTypeAtLocation(e))`, as far as the
modelled oracle reports it (literals display their literal types). -/
def exprTypeText (ctx : ACtx) (e : TsNode) : String :=
  match typeIdOf e with
  | some t => typeDisplay ctx.env t
  | none =>
    match stripParensAndCasts e with
    | .strLit s => "\"" ++ s ++ "\""
    | .numLit n => toString n
    | _ => "unknown"

/-- `typeToSchema(checker, checker.getTypeAtLocation(e))`.  Literal types
synthesize to their primitive schema exactly as in the source; expressions
outside the modelled oracle land on the `Unparsed type` fallback. -/
def exprSchema (ctx : ACtx) (e : TsNode) : Option JSchema :=
  match typeIdOf e with
  | some t => typeToSchemaTop ctx.env ctx.fuel t
  | none =>
    match stripParensAndCasts e with
    | .strLit _ => some (.prim "string" none false)
    | .numLit _ => some (.prim "number" none false)
    | _ => some (.descr "Unparsed type: unknown" false)

/-- `isStringType(checker.getTypeAtLocation(e))`. -/
def exprIsStringType (ctx : ACtx) (e : TsNode) : Bool :=
  match typeIdOf e with
  | some t => (ctx.env t).isStringLike
  | none => match stripParensAndCasts e with | .strLit _ => true | _ => false

/-- The fixed name set of `isBinaryLikeType`. -/
def binaryNamedTypes : List String :=
  ["ArrayBuffer", "SharedArrayBuffer",
   "Uint8Array", "Uint8ClampedArray", "Int8Array", "Int16Array", "Uint16Array",
   "Int32Array", "Uint32Array", "BigInt64Array", "BigUint64Array",
   "Float32Array", "Float64Array", "ReadableStream", "Blob", "File", "FormData"]

/-- Substring test (the `RegExp.test` calls of `isBinaryLikeType` use
unanchored patterns). -/
def strContains (s pat : String) : Bool := hasSubList pat.data s.data

/-- `isBinaryLikeType`: union members are tested recursively (fuel-bounded —
TS union graphs are finite and acyclic); named object types are tested
against the fixed set, then the display text against the stream/buffer
patterns (`Big(Uint)?64Array` matches the literal texts `Big64Array` and
`BigUint64Array`).  Primitive/unnamed non-object types are rejected up
front. -/
def isBinaryLikeT (env : TypeEnv) : Nat → Nat → Bool
  | 0, _ => false
  | f + 1, t =>
    match env t with
    | .union ms => ms.any (isBinaryLikeT env f)
    | .other s =>
      binaryNamedTypes.contains s
        || s == "ReadableStream"
        || (startsWithS s ("ReadableStream<") && endsWithS s (">"))
        || strContains s ("ArrayBuffer")
        || strContains s ("Uint8Array") || strContains s ("Int8Array")
        || strContains s ("Float32Array") || strContains s ("Float64Array")
        || strContains s ("Big64Array") || strContains s ("BigUint64Array")
    | _ => false

/-- `isBinaryLikeType(checker, checker.getTypeAtLocation(e))`. -/
def exprIsBinaryLike (ctx : ACtx) (e : TsNode) : Bool :=
  match typeIdOf e with
  | some t => isBinaryLikeT ctx.env ctx.fuel t
  | none => false

/-- `inferMediaTypeFromExpression`: the `type` option of a `new Blob(...)` /
`new File(...)` construction (first string-literal or resolvable `type`
property; an empty resolved string is falsy and skipped). -/
def inferMediaTypeFromExpression (ctx : ACtx) (e? : Option TsNode) : Option String :=
  match e? with
  | none => none
  | some e0 =>
    match stripParensAndCasts e0 with
    | .newE nm args =>
      if nm = "Blob" || nm = "File" then
        let optionsArg := if nm = "File" then args.get? 2 else args.get? 1
        match optionsArg with
        | some (.objLit props) =>
          props.findSome? fun p =>
            if p.1 = "type" then
              match p.2 with
              | .strLit s => some s
              | v =>
                match resolveToStringLiteralText ctx v with
                | some s => if s = "" then none else some s
                | none => none
            else none
        | _ => none
      else none
    | _ => none

/-- `inferMediaTypeFromResponseInit`: the `headers['content-type']` entry of a
`new Response(body, init)` options object. -/
def inferMediaTypeFromResponseInit (ctx : ACtx) (init? : Option TsNode) : Option String :=
  match init? with
  | some (.objLit props) =>
    props.findSome? fun p =>
      if p.1 = "headers" then
        match p.2 with
        | .objLit hs =>
          hs.findSome? fun h =>
            if toLowerS h.1 = "content-type" then
              match h.2 with
              | .strLit s => some s
              | v =>
                match resolveToStringLiteralText ctx v with
                | some s => if s = "" then none else some s
                | none => none
            else none
        | _ => none
      else none
  | _ => none

/-- `Array.from(new Set(out))` — first-occurrence deduplication. -/
def dedupInts (l : List Int) : List Int :=
  l.foldl (fun acc v => if acc.contains v then acc else acc ++ [v]) []

/-- `numbersFromType`: numeric-literal types contribute their value, a union
contributes every numeric-literal member, deduplicated.  (The
`typeToString`-digit fallbacks of the source fire exactly on types whose
display text is a numeral, i.e. numeric-literal types, already covered.) -/
def numbersFromType (env : TypeEnv) (t : Nat) : List Int :=
  let addFrom : TypeDef → List Int := fun td =>
    match td with
    | .numLitT v => [v]
    | _ => []
  let out := match env t with
    | .union ms => ms.flatMap fun i => addFrom (env i)
    | td => addFrom td
  dedupInts out

/-- `extractStatuses`: numeric literal directly; `Enum.Member` through the
enum-member oracle; otherwise the numeric-literal members of the expression's
oracle type. -/
def extractStatuses (ctx : ACtx) (e0 : TsNode) : List Int :=
  let e := stripParensAndCasts e0
  match e with
  | .numLit n => [(n : Int)]
  | _ =>
    let enumVal : Option Int :=
      match e with
      | .prop (.ident o) m => ctx.enumV o m
      | _ => none
    match enumVal with
    | some v => [v]
    | none =>
      match typeIdOf e with
      | some t => numbersFromType ctx.env t
      | none => []

/-- `extractStatusFromResponseInit`: the `status` property of a response-init
object literal, run through `extractStatuses`. -/
def extractStatusFromResponseInit (ctx : ACtx) (init? : Option TsNode) : List Int :=
  match init? with
  | some (.objLit props) =>
    match props.findSome? (fun p => if p.1 = "status" then some p.2 else none) with
    | some e => extractStatuses ctx e
    | none => []
  | _ => []

/-- One statically-observed response emission (the element type of
`findResponses`' result). -/
structure RespRec where
  text : Option String
  schema : Option JSchema
  status : Option Int
  mediaType : Option String
  headers : Option (List (String × JSchema))

/-- The `if (statuses.length) for (const s of statuses) push … else push`
pattern shared by the json/text/body/html branches. -/
def pushPer (statuses : List Int) (mk : Option Int → RespRec) : List RespRec :=
  match statuses with
  | [] => [mk none]
  | l => l.map fun s => mk (some s)

/-- The synthesized `Location` header schema of the redirect branch. -/
def locationHeaders : List (String × JSchema) :=
  [("Location", .prim "string" (some "uri") false)]

/-- The call-expression half of `findResponses`' visitor: the records one
call node contributes, given the body-wide explicit content type. -/
def respOfCall (ctx : ACtx) (ect : Option String) (pname : Option String) :
    TsNode → List RespRec
  | .call (.prop calleeBase callName) args =>
    let base := stripParensAndCasts calleeBase
    let isCtx : Bool := match pname with
      | none => true
      | some pn =>
        match base with
        | .ident b => b = pn
        | .prop (.ident b) _ => b = pn
        | _ => false
    if isCtx then
      let a0 := args.get? 0
      let statuses := match args.get? 1 with
        | some sa => extractStatuses ctx sa
        | none => []
      if callName = "json" then
        match a0 with
        | none => []
        | some a =>
          let mt := match ect with | some v => v | none => "application/json"
          pushPer statuses fun st =>
            ⟨some (exprTypeText ctx a), exprSchema ctx a, st, some mt, none⟩
      else if callName = "text" then
        let mt := match ect with | some v => v | none => "text/plain"
        pushPer statuses fun st => ⟨none, some (.prim "string" none false), st, some mt, none⟩
      else if callName = "body" then
        let mt0 := match ect with
          | some v => v
          | none =>
            match inferMediaTypeFromExpression ctx a0 with
            | some v => v
            | none => "application/octet-stream"
        let res : String × JSchema := match a0 with
          | none => (mt0, .prim "string" (some "binary") false)
          | some a =>
            if exprIsStringType ctx a then
              ((match ect with | some v => v | none => "text/plain"), .prim "string" none false)
            else if exprIsBinaryLike ctx a then
              ((match ect with | some v => v | none => mt0), .prim "string" (some "binary") false)
            else (mt0, .prim "string" (some "binary") false)
        pushPer statuses fun st => ⟨none, some res.2, st, some res.1, none⟩
      else if callName = "html" then
        let mt := match ect with | some v => v | none => "text/html"
        pushPer statuses fun st => ⟨none, some (.prim "string" none false), st, some mt, none⟩
      else if callName = "notFound" then
        (if statuses.isEmpty then [404] else statuses).map fun s =>
          ⟨none, none, some s, none, none⟩
      else if callName = "redirect" then
        match statuses with
        | [] => [⟨none, none, some 302, none, some locationHeaders⟩]
        | l => l.map fun s => ⟨none, none, some s, none, some locationHeaders⟩
      else []
    else []
  | _ => []

/-- The return-statement half of `findResponses`' visitor:
`return new Response(body, init)` (no context-parameter check is performed by
the source on this shape). -/
def respOfReturn (ctx : ACtx) (ect : Option String) : TsNode → List RespRec
  | .ret (some (.newE nm args)) =>
    if nm = "Response" then
      let a0 := args.get? 0
      let mediaType := match inferMediaTypeFromResponseInit ctx (args.get? 1) with
        | some v => some v
        | none => ect
      let statuses := extractStatusFromResponseInit ctx (args.get? 1)
      let schema : Option JSchema := match a0 with
        | none => none
        | some a =>
          if exprIsStringType ctx a then some (.prim "string" none false)
          else if exprIsBinaryLike ctx a || (inferMediaTypeFromExpression ctx (some a)).isSome then
            some (.prim "string" (some "binary") false)
          else none
      (if statuses.isEmpty then [200] else statuses).map fun s =>
        ⟨none, schema, some s, mediaType, none⟩
    else []
  | _ => []

/-- `findResponses`: compute the body-wide explicit content type once, then
collect the records of every node of the single depth-first traversal of the
handler body, in document order. -/
def findResponses (ctx : ACtx) (body : Option (List TsNode)) (pname : Option String) :
    List RespRec :=
  match body with
  | none => []
  | some stmts =>
    let ect := findExplicitContentType ctx stmts pname
    (preorderList stmts).flatMap fun n => respOfCall ctx ect pname n ++ respOfReturn ctx ect n

/-- JS object assignment on a string-keyed map: writing an existing key
replaces its value in place (keeping its insertion position), otherwise the
pair is appended. -/
def insertJS {α : Type} (m : List (String × α)) (k : String) (v : α) : List (String × α) :=
  if m.any (fun p => p.1 == k) then m.map (fun p => if p.1 == k then (k, v) else p)
  else m ++ [(k, v)]

/-- JS object read on a string-keyed map. -/
def lookupJS {α : Type} (m : List (String × α)) (k : String) : Option α :=
  (m.find? (fun p => p.1 == k)).map Prod.snd

/-- `isCtxMember`: is `base` the property `member` of the context parameter
(or of anything, when the parameter name is unknown). -/
def isCtxMember (base : TsNode) (ctxName : Option String) (member : String) : Bool :=
  match stripParensAndCasts base with
  | .prop bobj name =>
    if name ≠ member then false
    else
      match ctxName with
      | none => true
      | some cn => match stripParensAndCasts bobj with | .ident o => o == cn | _ => false
  | _ => false

/-- The `<ctx>.req.query('name')` recognizer of `findRequestData`: the query
parameter name one call node contributes. -/
def queryPropOfNode (pname : Option String) : TsNode → Option String
  | .call (.prop e nm) args =>
    if nm = "query" && isCtxMember e pname "req" then
      match args.get? 0 with
      | some (.strLit k) => some k
      | _ => none
    else none
  | _ => none

/-- `findRequestData`.  The embedded syntax has no variable declarations and
no `await` expressions, so the two declaration-based patterns (a typed local
initialized from `await c.req.json()` / `c.req.query()`, and
`schema.parse(await c.req.json())` against a `z.object` initializer) have no
representable instances and contribute nothing; the `c.req.query('name')`
call pattern is modelled in full.  String-literal query names accumulate into
a `{type: object, properties, required: []}` schema (the required set stays
empty on this path), `none` when no name was found. -/
def findRequestData (body : Option (List TsNode)) (pname : Option String) :
    Option JSchema × Option JSchema :=
  match body with
  | none => (none, none)
  | some stmts =>
    let qnames := (preorderList stmts).filterMap (queryPropOfNode pname)
    let qprops := qnames.foldl
      (fun acc k => insertJS acc k (JSchema.prim "string" none false)) []
    (none, if qprops.isEmpty then none else some (JSchema.obj qprops [] false))

/-- `extractPathParams`: all matches of `:([A-Za-z0-9_]+)` in the raw path,
in order (a scanner equivalent to the global-regex loop: `acc` is the
reversed run of word characters of the parameter currently being read). -/
def isWordChar (ch : Char) : Bool := ch.isAlphanum || ch = '_'

def extractPathParamsGo (acc : Option (List Char)) : List Char → List String
  | [] =>
    match acc with
    | some r => if r.isEmpty then [] else [String.mk r.reverse]
    | none => []
  | c :: rest =>
    match acc with
    | none =>
      if c = ':' then extractPathParamsGo (some []) rest
      else extractPathParamsGo none rest
    | some r =>
      if isWordChar c then extractPathParamsGo (some (c :: r)) rest
      else
        let emitted := if r.isEmpty then [] else [String.mk r.reverse]
        if c = ':' then emitted ++ extractPathParamsGo (some []) rest
        else emitted ++ extractPathParamsGo none rest

def extractPathParams (path : String) : List String :=
  extractPathParamsGo none path.toList

/-- An element of `RouteInfo.responses` as `analyzeSource` records it: the
interface declares `status: number`, and `analyzeSource` fills it with
`f.status ?? 200`. -/
structure RespItem where
  status : Int
  schema : Option JSchema
  mediaType : Option String
  headers : Option (List (String × JSchema))

/-- `RouteInfo` — one statically-discovered endpoint. -/
structure RouteInfo where
  method : String
  path : String
  responseTypeText : Option String
  responseSchema : Option JSchema
  requestBodySchema : Option JSchema
  querySchema : Option JSchema
  pathParams : List String
  responses : List RespItem
  middlewareScopes : Option (List String)

/-- `node.arguments[1]` of a recognized route-registration call — the
handler. -/
def handlerArgOf : TsNode → Option TsNode
  | .call _ args => args.get? 1
  | _ => none

/-- The record `analyzeSource`'s visitor pushes for one recognized
route-registration node (handler body and context-parameter name are taken
from an arrow-function/function-expression second argument when present). -/
def recordOfNode (ctx : ACtx) (n : TsNode) : Option RouteInfo :=
  match routeCallOf n with
  | none => none
  | some (m, p) =>
    let hb : Option (List TsNode) × Option String :=
      match handlerArgOf n with
      | some (.arrow pn body) => (some body, pn)
      | _ => (none, none)
    let foundList := findResponses ctx hb.1 hb.2
    let first := foundList.head?
    let req := findRequestData hb.1 hb.2
    some ⟨m, p,
      first.bind RespRec.text,
      first.bind RespRec.schema,
      req.1,
      req.2,
      extractPathParams p,
      foundList.map (fun f => ⟨f.status.getD 200, f.schema, f.mediaType, f.headers⟩),
      none⟩

/-- `analyzeSource`: the single depth-first traversal of a parsed source file
(modelled as its top-level statement list), pushing one `RouteInfo` per
recognized route-registration call, in document order. -/
def analyzeSource (ctx : ACtx) (file : List TsNode) : List RouteInfo :=
  (preorderList file).filterMap (recordOfNode ctx)

/-- `inner.split(/[;,]\s*/)` of the inline-object branch of
`typeTextToSchema`: split on `;` or `,`, consuming any whitespace following a
delimiter as part of the delimiter (`skipping` is true right after a
delimiter). -/
def splitDelimGo (skipping : Bool) (cur : List Char) : List Char → List String
  | [] => [String.mk cur.reverse]
  | c :: rest =>
    if skipping && isWsChar c then splitDelimGo true cur rest
    else if c = ';' || c = ',' then String.mk cur.reverse :: splitDelimGo true [] rest
    else splitDelimGo false (c :: cur) rest

/-- One member of the inline-object branch, matched against
`^(\w+)(\?)?:\s*(.+)$` (word-character name, optional `?`, `:`, optional
whitespace, non-empty member type text; when everything after the colon is
whitespace, backtracking leaves the final whitespace character as the member
type). -/
def parsePart (p : String) : Option (String × Bool × String) :=
  let cs := p.toList
  let nameRun := cs.takeWhile fun ch => ch.isAlphanum || ch = '_'
  if nameRun.isEmpty then none
  else
    let rest1 := cs.drop nameRun.length
    let optRest : Bool × List Char := match rest1 with
      | '?' :: r => (true, r)
      | r => (false, r)
    match optRest.2 with
    | ':' :: r3 =>
      let r4 := r3.dropWhile isWsChar
      if r4.isEmpty then
        match r3.getLast? with
        | some c => some (String.mk nameRun, optRest.1, String.mk [c])
        | none => none
      else some (String.mk nameRun, optRest.1, String.mk r4)
    | _ => none

/-- `typeTextToSchema` from `src/schema.ts`: the heuristic, regex-based
converter from a TypeScript type text to a schema (fuel-indexed; every
recursive call is on a strictly shorter text, so a fuel of `length + 1`
suffices).  Texts are assumed newline-free (the source's `.`-based regexes do
not span newlines). -/
def typeTextToSchema (fuel : Nat) (typeText : Option String) : Option JSchema :=
  match fuel, typeText with
  | _, none => none
  | 0, some _ => none
  | f + 1, some tt =>
    if tt = "" then none
    else
      let t := trimS tt
      if t = "string" || t = "String" then some (.prim "string" none false)
      else if t = "number" || t = "Number" then some (.prim "number" none false)
      else if t = "boolean" || t = "Boolean" then some (.prim "boolean" none false)
      else if t = "null" then some (.prim "null" none false)
      else if t = "undefined" || t = "void" then some (.emptyS true)
      else if endsWithS t ("[]") && (t.dropRight 2) ≠ "" then
        some (.arr ((typeTextToSchema f (some (trimS (t.dropRight 2)))).getD (.emptyS false)) false)
      else if startsWithS t ("Array<") && endsWithS t (">") && ((t.drop 6).dropRight 1) ≠ "" then
        some (.arr ((typeTextToSchema f (some (trimS ((t.drop 6).dropRight 1)))).getD
          (.emptyS false)) false)
      else
        let recordCase : Option JSchema :=
          if startsWithS t ("Record<") && endsWithS t (">") then
            let mid := (t.drop 7).dropRight 1
            let s1 := String.mk (mid.toList.dropWhile isWsChar)
            if startsWithS s1 ("string") then
              let s2 := String.mk ((s1.drop 6).toList.dropWhile isWsChar)
              if startsWithS s2 (",") && s2.drop 1 ≠ "" then
                some (.objAdd ((typeTextToSchema f (some (trimS (s2.drop 1)))).getD
                  (.emptyS false)) false)
              else none
            else none
          else none
        match recordCase with
        | some r => some r
        | none =>
          if startsWithS t ("\x7b") && endsWithS t ("\x7d") then
            let inner := trimS ((t.drop 1).dropRight 1)
            let parts := (splitDelimGo false [] inner.toList).filter (fun s => s ≠ "")
            let folded := parts.foldl
              (fun (acc : List (String × JSchema) × List String) part =>
                match parsePart part with
                | none => acc
                | some (nm, opt, vtype) =>
                  (insertJS acc.1 nm ((typeTextToSchema f (some vtype)).getD (.emptyS false)),
                   if opt then acc.2 else acc.2 ++ [nm]))
              ([], [])
            some (.obj folded.1 folded.2 false)
          else some (.descr ("Unparsed type: " ++ t) false)

/-- `typeTextToSchema` at an always-sufficient fuel. -/
def typeTextToSchemaTop (s : Option String) : Option JSchema :=
  typeTextToSchema ((match s with | some t => t.length | none => 0) + 1) s

/-- `toOpenApiPath`: rewrite every `:name` token to `\x7bname\x7d` (same
scanner structure as `extractPathParamsGo`; a `:` starting no word run stays
as it is). -/
def toOpenApiPathGo (acc : Option (List Char)) : List Char → List Char
  | [] =>
    match acc with
    | some r => if r.isEmpty then [':'] else '\x7b' :: (r.reverse ++ ['\x7d'])
    | none => []
  | c :: rest =>
    match acc with
    | none =>
      if c = ':' then toOpenApiPathGo (some []) rest
      else c :: toOpenApiPathGo none rest
    | some r =>
      if isWordChar c then toOpenApiPathGo (some (c :: r)) rest
      else
        let emitted := if r.isEmpty then [':'] else '\x7b' :: (r.reverse ++ ['\x7d'])
        if c = ':' then emitted ++ toOpenApiPathGo (some []) rest
        else emitted ++ (c :: toOpenApiPathGo none rest)

def toOpenApiPath (honoPath : String) : String :=
  String.mk (toOpenApiPathGo none honoPath.toList)

/-- An OpenAPI response object as the assembler emits it: fixed description
`OK`, the record's headers verbatim, and at most one content entry keyed by
the resolved media type. -/
structure RespObj where
  description : String
  headers : Option (List (String × JSchema))
  content : Option (String × JSchema)

/-- A path/query parameter object (`loc` is the `in` field). -/
structure ParamObj where
  name : String
  loc : String
  required : Bool
  schema : JSchema

/-- The request body object: `required: true` with an `application/json`
content schema. -/
structure RequestBodyObj where
  required : Bool
  schema : JSchema

/-- An OpenAPI operation as the assembler emits it (`parameters = []` models
the absent key, matching the `if (parameters.length)` guard). -/
structure Operation where
  parameters : List ParamObj
  tags : Option (List String)
  descriptionTxt : Option String
  requestBody : Option RequestBodyObj
  responses : List (String × RespObj)

structure OpenApiDoc where
  openapi : String
  title : String
  version : String
  paths : List (String × List (String × Operation))

/-- `String(respItem.status || 200)` — a zero (falsy) status also falls back
to 200. -/
def statusCodeStr (status : Int) : String :=
  toString (if status = 0 then 200 else status)

/-- One entry of the status-code-keyed response map: description `OK`, the
record's headers, and content keyed by the record's media type (default, and
empty-string fallback, `application/json`) when a schema is present. -/
def renderRespItem (it : RespItem) : RespObj :=
  ⟨"OK", it.headers,
   it.schema.map fun s =>
     ((match it.mediaType with
       | some m => if m = "" then "application/json" else m
       | none => "application/json"), s)⟩

/-- The `for (const respItem of collected) responses[code] = ro` loop:
later records overwrite the entry of an already-seen status code in place
(JS object assignment). -/
def buildResponses (collected : List RespItem) : List (String × RespObj) :=
  collected.foldl (fun acc it => insertJS acc (statusCodeStr it.status) (renderRespItem it)) []

/-- The operation assembled for one `RouteInfo` by `routesToOpenAPI`. -/
def routeToOp (r : RouteInfo) : Operation :=
  let schema := match r.responseSchema with
    | some s => some s
    | none => typeTextToSchemaTop r.responseTypeText
  let parameters :=
    r.pathParams.map (fun p => ParamObj.mk p "path" true (.prim "string" none false))
      ++ (match r.querySchema with
          | some (.obj props req _) =>
            props.map fun pr => ParamObj.mk pr.1 "query" (req.contains pr.1) pr.2
          | _ => [])
  let tagsDesc : Option (List String) × Option String := match r.middlewareScopes with
    | some scopes =>
      if scopes.isEmpty then (none, none)
      else (some scopes, some ("Middleware applied from: " ++ String.intercalate ", " scopes))
    | none => (none, none)
  let requestBody := r.requestBodySchema.map fun s => RequestBodyObj.mk true s
  let responses := if r.responses.isEmpty then
      [("200", ⟨"OK", none, schema.map fun s => ("application/json", s)⟩)]
    else buildResponses r.responses
  ⟨parameters, tagsDesc.1, tagsDesc.2, requestBody, responses⟩

/-- `routesToOpenAPI`: fold every record into the two-level
`paths[path][method] = op` map (JS object assignment at both levels), with
the fixed document envelope. -/
def routesToOpenAPI (routes : List RouteInfo) : OpenApiDoc :=
  let paths := routes.foldl
    (fun paths r =>
      let path := toOpenApiPath r.path
      let inner := (lookupJS paths path).getD []
      insertJS paths path (insertJS inner r.method (routeToOp r)))
    []
  ⟨"3.0.1", "hono-autopenapi", "0.1.0", paths⟩

/-- Modelled `node:path` segmentation of a normalized absolute POSIX path
(no `.`/`..` segments): its non-empty `/`-separated segments. -/
def splitSegs (s : String) : List String :=
  (splitChar '/' s).filter (fun x => x ≠ "")

/-- `path.parse(rel).name`: the base name without its final extension (a
leading lone dot starts no extension). -/
def stripExt (base : String) : String :=
  let parts := splitChar '.' base
  match parts with
  | [] => base
  | [_] => base
  | ["", _] => base
  | _ => String.intercalate "." parts.dropLast

/-- `isMethodFile` from `src/src/autorouter.ts`: the lower-cased base name
when it is one of the fixed HTTP method names. -/
def isMethodFile (baseName : String) : Option String :=
  let lower := toLowerS baseName
  if httpMethodNames.contains lower then some lower else none

/-- `convertSegment`: `[id] → :id`, `[...slug] → :slug`, `[[...slug]] →
:slug`; anything else passes through. -/
def convertSegment (s : String) : String :=
  if startsWithS s ("[") && endsWithS s ("]") then
    let n1 := (s.drop 1).dropRight 1
    let n2 := if startsWithS n1 ("...") then n1.drop 3 else n1
    let n3 := if startsWithS n2 ("[") && endsWithS n2 ("]") then (n2.drop 1).dropRight 1 else n2
    ":" ++ n3
  else s

/-- `computeAutorouterPath` from `src/src/autorouter.ts` (Convention B).
`path.relative` on normalized absolute paths yields a `..`-prefixed result
exactly when the file is not under the root, in which case the function
returns `undefined`. -/
def computeAutorouterPath (rootDirAbs fileAbs : String) : Option String :=
  let r := splitSegs rootDirAbs
  let f := splitSegs fileAbs
  if r.isPrefixOf f then
    let rel := f.drop r.length
    let dirSegs := rel.dropLast
    let base := match rel.getLast? with
      | some b => stripExt b
      | none => ""
    let methodInName := isMethodFile base
    let segs := if methodInName.isNone && base ≠ "index" then dirSegs ++ [base] else dirSegs
    let pathSegs := segs.map convertSegment
    let joined := "/" ++ String.intercalate "/" (pathSegs.filter (fun x => x ≠ ""))
    some (if joined = "" then "/" else joined)
  else none

/-- `path.join` of an absolute directory (given by its segments) with a file
name. -/
def joinAbs (segs : List String) : String :=
  "/" ++ String.intercalate "/" segs

/-- The `middleware.ts` probe path of one walked directory. -/
def middlewarePathOf (cur : List String) : String :=
  joinAbs (cur ++ ["middleware.ts"])

/-- The scope prefix contributed by a directory under the root:
`rel ? '/' + segments.join('/') : '/'`. -/
def scopePrefixOf (rootSegs cur : List String) : String :=
  let rel := cur.drop rootSegs.length
  if rel.isEmpty then "/" else "/" ++ String.intercalate "/" rel

/-- The upward walk of `findMiddlewareScopes`: check the current directory,
stop at the root (inclusive), at the filesystem root, or on leaving the
configured root; `fs` is the modelled `fs.existsSync`.  Each step drops one
trailing segment, so the loop runs at most `cur.length + 1` times; the
recursion is indexed by that bound. -/
def walkScopesGo (fs : String → Bool) (rootSegs : List String) :
    Nat → List String → List String
  | 0, _ => []
  | fuel + 1, cur =>
    let here := if fs (middlewarePathOf cur) then [scopePrefixOf rootSegs cur] else []
    if cur = rootSegs then here
    else if cur.isEmpty then here
    else
      let parent := cur.dropLast
      if rootSegs.isPrefixOf parent then here ++ walkScopesGo fs rootSegs fuel parent
      else here

def walkScopes (fs : String → Bool) (rootSegs : List String) (cur : List String) :
    List String :=
  walkScopesGo fs rootSegs (cur.length + 1) cur

/-- The JS comparator key `s.split('/').length` of the final sort (note the
root scope `'/'` splits into two empty strings, the same key as a depth-one
scope). -/
def scopeSortKey (s : String) : Nat :=
  (splitChar '/' s).length

/-- Stable insertion (an earlier element precedes later elements of equal
key), modelling the stability of `Array.prototype.sort`. -/
def stableInsertBy (key : String → Nat) (x : String) : List String → List String
  | [] => [x]
  | y :: ys => if key y < key x then y :: stableInsertBy key x ys else x :: y :: ys

/-- Stable sort by key — `scopes.sort((a, b) => a.split('/').length -
b.split('/').length)`. -/
def stableSortBy (key : String → Nat) : List String → List String
  | [] => []
  | x :: xs => stableInsertBy key x (stableSortBy key xs)

/-- `findMiddlewareScopes` from `src/src/autoroutes.ts` (the root is assumed
normalized and absolute, so `path.resolve` is the identity on it). -/
def findMiddlewareScopes (fs : String → Bool) (filePath : String) (rootDirAbs : String) :
    List String :=
  let rootSegs := splitSegs rootDirAbs
  let dir := (splitSegs filePath).dropLast
  stableSortBy scopeSortKey (walkScopes fs rootSegs dir)

/-! Concrete type environments, sources and records used by the verification
instances below. -/

/-- An acyclic (shared/DAG) type graph: type 0 is an object with two
properties of the same object type 1; type 1 has a single string property. -/
def envDAG : TypeEnv := fun n =>
  match n with
  | 0 => .objT [("a", false, 1), ("b", false, 1)]
  | 1 => .objT [("x", false, 2)]
  | _ => .str

/-- A cyclic array type (`type A = A[]` shape): every index is the array of
type 0. -/
def envLoop : TypeEnv := fun _ => .arrT 0

/-- `string | undefined`. -/
def envSU : TypeEnv := fun n =>
  match n with
  | 0 => .union [1, 2]
  | 1 => .str
  | _ => .nullish "undefined"

/-- A union of two distinct object types of identical shape plus `null`. -/
def envUU : TypeEnv := fun n =>
  match n with
  | 0 => .union [1, 2, 3]
  | 1 => .objT [("x", false, 4)]
  | 2 => .objT [("x", false, 4)]
  | 3 => .nullish "null"
  | _ => .str

/-- The type indices a `TypeDef` node references directly. -/
def typeRefs : TypeDef → List Nat
  | .union ms => ms
  | .arrT e => [e]
  | .objT props => props.map (fun p => p.2.2)
  | _ => []

/-- Fuel-bounded reachability in a type graph along `typeRefs` edges. -/
def reachesWithin (env : TypeEnv) : Nat → Nat → Nat → Bool
  | 0, _, _ => false
  | f + 1, a, b => (typeRefs (env a)).any fun c => c == b || reachesWithin env f c b

/-- Example oracle: type 0 an object `{ok: boolean}`, type 5 the status union
`400 | 422`. -/
def envC : TypeEnv := fun n =>
  match n with
  | 0 => .objT [("ok", false, 1)]
  | 1 => .boolean
  | 5 => .union [6, 7]
  | 6 => .numLitT 400
  | 7 => .numLitT 422
  | _ => .str

def ctxC : ACtx := ⟨envC, fun _ _ => none, fun _ => none, 10⟩

def objSchemaC : JSchema := .obj [("ok", .prim "boolean" none false)] ["ok"] false

/-- Handler with `c.json(x, 200)` and `c.json(err, 422)`. -/
def handler2 : TsNode :=
  .arrow (some "c")
    [.ret (some (.call (.prop (.ident "c") "json") [.typedVal 0, .numLit 200])),
     .ret (some (.call (.prop (.ident "c") "json") [.typedVal 1, .numLit 422]))]

def file2 : List TsNode :=
  [.call (.prop (.ident "app") "get") [.strLit "/items/:id", handler2]]

/-- Handler body with an explicit `c.header('content-type', 'application/xml')`
call followed by a `c.json` call. -/
def bodyH : List TsNode :=
  [.call (.prop (.ident "c") "header") [.strLit "content-type", .strLit "application/xml"],
   .ret (some (.call (.prop (.ident "c") "json") [.typedVal 0]))]

/-- Handler emitting two responses with the same status 200 (a json and a
text call). -/
def handler9 : TsNode :=
  .arrow (some "c")
    [.ret (some (.call (.prop (.ident "c") "json") [.typedVal 0, .numLit 200])),
     .ret (some (.call (.prop (.ident "c") "text") [.strLit "hi", .numLit 200]))]

def file9 : List TsNode :=
  [.call (.prop (.ident "r") "post") [.strLit "/x", handler9]]

/-- Route file whose handler calls `c.json(x)` with no status argument. -/
def fileA : List TsNode :=
  [.call (.prop (.ident "app") "get")
    [.strLit "/p", .arrow (some "c") [.ret (some (.call (.prop (.ident "c") "json") [.typedVal 0]))]]]

/-- The record `analyzeSource` produces for `fileA`. -/
def recA : RouteInfo :=
  ⟨"get", "/p", some "object", some objSchemaC, none, none, [],
   [⟨200, some objSchemaC, some "application/json", none⟩], none⟩

/-- A record with an empty collected-responses list and a textual legacy
response type. -/
def rEmpty : RouteInfo :=
  ⟨"get", "/e", some "string", none, none, none, [], [], none⟩

/-- A record with two collected responses at the same status code 200. -/
def rW : RouteInfo :=
  ⟨"get", "/w", none, none, none, none, [],
   [⟨200, some (.prim "string" none false), some "text/plain", none⟩,
    ⟨200, none, none, none⟩], none⟩

/-- Filesystem of the middleware-scope example: `middleware.ts` exists in
`/app` and in `/app/users`. -/
def fsEx : String → Bool := fun p =>
  p == "/app/middleware.ts" || p == "/app/users/middleware.ts"

/-! Helper lemmas about the shared map/list machinery. -/

theorem mem_pushPer {statuses : List Int} {mk : Option Int → RespRec} {r : RespRec}
    (h : r ∈ pushPer statuses mk) : ∃ st, r = mk st := by
  cases statuses with
  | nil =>
    have h' : r ∈ [mk none] := h
    exact ⟨none, by simpa using h'⟩
  | cons a l =>
    have h' : r ∈ (a :: l).map (fun s => mk (some s)) := h
    rcases List.mem_map.mp h' with ⟨s, _, hs⟩
    exact ⟨some s, hs.symm⟩

theorem mem_insertJS {α : Type} {m : List (String × α)} {k : String} {v : α} {x : String × α}
    (h : x ∈ insertJS m k v) : x = (k, v) ∨ x ∈ m := by
  unfold insertJS at h
  split at h
  · rcases List.mem_map.mp h with ⟨p, hp, he⟩
    by_cases hk : p.1 == k
    · rw [if_pos hk] at he
      exact Or.inl he.symm
    · rw [if_neg hk] at he
      exact Or.inr (he ▸ hp)
  · rcases List.mem_append.mp h with h | h
    · exact Or.inr h
    · exact Or.inl (by simpa using h)

theorem insertJS_ne_nil {α : Type} (m : List (String × α)) (k : String) (v : α) :
    insertJS m k v ≠ [] := by
  unfold insertJS
  split
  · intro hmap
    rw [List.map_eq_nil_iff] at hmap
    subst hmap
    simp_all
  · simp

theorem lookupJS_mem {α : Type} {m : List (String × α)} {k : String} {v : α}
    (h : lookupJS m k = some v) : ∃ p ∈ m, p.2 = v := by
  unfold lookupJS at h
  cases hf : m.find? (fun p => p.1 == k) with
  | none => rw [hf] at h; simp at h
  | some p =>
    rw [hf] at h
    simp at h
    exact ⟨p, List.mem_of_find?_eq_some hf, h⟩

theorem lookupJS_map_self {α : Type} (k : String) (v : α) :
    ∀ t : List (String × α), t.any (fun p => p.1 == k) = true →
      lookupJS (t.map (fun p => if p.1 == k then (k, v) else p)) k = some v := by
  intro t
  induction t with
  | nil => simp
  | cons p t ih =>
    intro hany
    rw [List.map_cons]
    by_cases hp : (p.1 == k) = true
    · rw [if_pos hp]
      unfold lookupJS
      rw [List.find?_cons_of_pos _ (by simp)]
      rfl
    · rw [if_neg hp]
      unfold lookupJS
      rw [List.find?_cons_of_neg _ (by simp [hp])]
      have ht : t.any (fun p => p.1 == k) = true := by
        simp only [List.any_cons, hp, Bool.false_or] at hany
        exact hany
      exact ih ht

theorem lookupJS_map_keyk {α : Type} (k : String) (v : α) (c : String)
    (hkc : (k == c) = false) :
    ∀ t : List (String × α),
      lookupJS (t.map (fun p => if p.1 == k then (k, v) else p)) c = lookupJS t c := by
  intro t
  induction t with
  | nil => simp [lookupJS]
  | cons p t ih =>
    rw [List.map_cons]
    by_cases hp : (p.1 == k) = true
    · have hpk : p.1 = k := eq_of_beq hp
      have hpc : (p.1 == c) = false := by rw [hpk]; exact hkc
      rw [if_pos hp]
      unfold lookupJS
      rw [List.find?_cons_of_neg _ (by simp [hkc]), List.find?_cons_of_neg _ (by simp [hpc])]
      exact ih
    · rw [if_neg hp]
      by_cases hpc : (p.1 == c) = true
      · unfold lookupJS
        rw [List.find?_cons_of_pos _ (by simp [hpc]), List.find?_cons_of_pos _ (by simp [hpc])]
      · unfold lookupJS
        rw [List.find?_cons_of_neg _ (by simp [hpc]), List.find?_cons_of_neg _ (by simp [hpc])]
        exact ih

theorem lookupJS_append_single {α : Type} :
    ∀ (m : List (String × α)) (k : String) (v : α) (c : String),
      m.any (fun p => p.1 == k) = false →
      lookupJS (m ++ [(k, v)]) c = if c = k then some v else lookupJS m c := by
  intro m
  induction m with
  | nil =>
    intro k v c _
    by_cases hc : c = k
    · subst hc; simp [lookupJS]
    · have hkc : (k == c) = false := beq_eq_false_iff_ne.mpr fun he => hc he.symm
      simp [lookupJS, hkc, hc]
  | cons p t ih =>
    intro k v c hany
    simp only [List.any_cons, Bool.or_eq_false_iff] at hany
    rw [List.cons_append]
    by_cases hpc : (p.1 == c) = true
    · have hck : ¬ c = k := by
        intro he
        subst he
        rw [hpc] at hany
        exact absurd hany.1 (by simp)
      unfold lookupJS
      rw [List.find?_cons_of_pos _ (by simp [hpc]), List.find?_cons_of_pos _ (by simp [hpc])]
      rw [if_neg hck]
    · unfold lookupJS
      rw [List.find?_cons_of_neg _ (by simp [hpc]), List.find?_cons_of_neg _ (by simp [hpc])]
      have := ih k v c hany.2
      unfold lookupJS at this
      exact this

theorem lookupJS_insertJS {α : Type} (m : List (String × α)) (k : String) (v : α) (c : String) :
    lookupJS (insertJS m k v) c = if c = k then some v else lookupJS m c := by
  unfold insertJS
  by_cases hany : (m.any fun p => p.1 == k) = true
  · rw [if_pos hany]
    by_cases hc : c = k
    · subst hc
      rw [if_pos rfl]
      exact lookupJS_map_self c v m hany
    · rw [if_neg hc]
      exact lookupJS_map_keyk k v c (beq_eq_false_iff_ne.mpr fun he => hc he.symm) m
  · rw [if_neg hany]
    exact lookupJS_append_single m k v c (Bool.eq_false_iff.mpr hany)

theorem buildResponses_ne_nil (collected : List RespItem) (h : collected ≠ []) :
    buildResponses collected ≠ [] := by
  unfold buildResponses
  cases collected with
  | nil => exact absurd rfl h
  | cons x xs =>
    rw [List.foldl_cons]
    have step : ∀ (l : List RespItem) (acc : List (String × RespObj)), acc ≠ [] →
        l.foldl (fun a it => insertJS a (statusCodeStr it.status) (renderRespItem it)) acc ≠ [] := by
      intro l
      induction l with
      | nil => intro acc hacc; simpa using hacc
      | cons y ys ih =>
        intro acc _
        rw [List.foldl_cons]
        exact ih _ (insertJS_ne_nil _ _ _)
    exact step xs _ (insertJS_ne_nil _ _ _)

theorem routeToOp_responses_ne_nil (r : RouteInfo) : (routeToOp r).responses ≠ [] := by
  unfold routeToOp
  by_cases h : r.responses.isEmpty
  · simp [h]
  · simp only [h, Bool.false_eq_true, if_false]
    exact buildResponses_ne_nil _ (by simpa [List.isEmpty_iff] using h)

theorem lookupJS_buildResponses (collected : List RespItem) (code : String) :
    lookupJS (buildResponses collected) code
      = ((collected.filter fun it => statusCodeStr it.status == code).getLast?).map
          renderRespItem := by
  unfold buildResponses
  induction collected using List.reverseRecOn with
  | nil => simp [lookupJS]
  | append_singleton l x ih =>
    rw [List.foldl_append, List.foldl_cons, List.foldl_nil, lookupJS_insertJS,
        List.filter_append]
    by_cases hc : code = statusCodeStr x.status
    · rw [if_pos hc]
      have hx : (statusCodeStr x.status == code) = true := beq_iff_eq.mpr hc.symm
      simp [hx]
    · rw [if_neg hc]
      have hx : (statusCodeStr x.status == code) = false :=
        beq_eq_false_iff_ne.mpr fun he => hc he.symm
      simp only [List.filter_cons, hx, Bool.false_eq_true, if_false, List.filter_nil,
        List.append_nil]
      exact ih

/-- C2 counterexample: the `...recursive...` marker is NOT substituted only
on cycles.  In the acyclic (shared) type graph `envDAG`, type 1 does not
reach itself, yet the second occurrence of type 1 (property `b`) synthesizes
to the marker, because the engine's `seen` set is never popped: it records
"ever expanded", not "currently being expanded". -/
theorem C2_counterexample :
    typeToSchemaTop envDAG 10 0
      = some (.obj [("a", .obj [("x", .prim "string" none false)] ["x"] false),
                    ("b", .descr "...recursive..." false)] ["a", "b"] false)
    ∧ reachesWithin envDAG 4 1 1 = false :=
  ⟨rfl, rfl⟩

/-- C2 (amended): object expansion substitutes the terminal
`...recursive...` leaf exactly when it re-enters an object type **already in
the ever-expanded `seen` set** (which also covers repeated acyclic
occurrences, not only cycles); and the guard does not cover array-element
recursion, so on a type graph whose cycle passes only through an array node
the fuel-indexed synthesizer yields no result at any recursion-depth budget
(modelling non-termination of the source). -/
theorem C2_recursion_guard :
    (∀ (env : TypeEnv) (fuel t : Nat) (seen : List Nat) (props : List (String × Bool × Nat)),
        env t = .objT props →
        (typeToSchemaF env (fuel + 1) t seen
            = some (.descr "...recursive..." false, seen) ↔ seen.contains t = true))
  ∧ (∀ (fuel : Nat) (seen : List Nat), typeToSchemaF envLoop fuel 0 seen = none) := by
  constructor
  · intro env fuel t seen props hobj
    constructor
    · intro h
      by_contra hc
      have hc' : seen.contains t = false := Bool.eq_false_iff.mpr hc
      simp only [typeToSchemaF, hobj, hc', Bool.false_eq_true, if_false] at h
      split at h
      · exact Option.noConfusion h
      · rename_i heq
        rw [Option.some.injEq, Prod.mk.injEq] at h
        exact JSchema.noConfusion h.1
    · intro h
      have hm : t ∈ seen := by simpa using h
      simp [typeToSchemaF, hobj, hm]
  · intro fuel
    induction fuel with
    | zero => intro seen; rfl
    | succ f ih =>
      intro seen
      simp only [typeToSchemaF, envLoop, ih]

/-- Witness for C2: the marker condition applied concretely — expanding
object type 1 of `envDAG` with 1 already in the seen set yields the marker. -/
theorem C2_recursion_guard_witness :
    typeToSchemaF envDAG 3 1 [1] = some (.descr "...recursive..." false, [1]) :=
  (C2_recursion_guard.1 envDAG 2 1 [1] [("x", false, 2)] rfl).mpr rfl

/-- C3: a union containing a null/undefined member strips the nullish
members before synthesis; with exactly one non-null member left the result is
that member's schema mutated to `nullable: true` (concretely,
`string | undefined` synthesizes to `{type: string, nullable: true}`); with
several non-null members left the result is a union (`anyOf`) of the
structurally-deduplicated variant schemas, marked nullable. -/
theorem C3_nullable_union :
    (∀ (env : TypeEnv) (fuel t : Nat) (seen : List Nat) (ms : List Nat) (m : Nat),
        env t = .union ms →
        (ms.any fun i => (env i).isNullish) = true →
        ms.filter (fun i => !(env i).isNullish) = [m] →
        typeToSchemaF env (fuel + 1) t seen
          = (typeToSchemaF env fuel m seen).map (fun p => (setNullable p.1, p.2)))
  ∧ typeToSchemaTop envSU 3 0 = some (.prim "string" none true)
  ∧ typeToSchemaTop envUU 4 0
      = some (.anyOf [.obj [("x", .prim "string" none false)] ["x"] false] true) := by
  refine ⟨?_, rfl, rfl⟩
  intro env fuel t seen ms m h1 h2 h3
  simp only [typeToSchemaF, h1, h2, h3]
  cases hres : typeToSchemaF env fuel m seen with
  | none => simp
  | some p => cases p with | mk s sn => simp

/-- Witness for C3: the single-non-null-member branch applied to the
`string | undefined` environment. -/
theorem C3_nullable_union_witness :
    typeToSchemaF envSU 3 0 []
      = (typeToSchemaF envSU 2 1 []).map (fun p => (setNullable p.1, p.2)) :=
  C3_nullable_union.1 envSU 2 0 [] [1, 2] 1 rfl rfl rfl

/-- C4 counterexample: for a Convention B file whose extension-stripped base
name (`[id]`, neither an index marker nor a method name) is appended, the
composed path ends in the **transformed** segment `:id`, not in the raw base
name `[id]` — `segs.map(convertSegment)` runs after the base name is pushed,
so the bracket-to-colon transformation IS applied to it. -/
theorem C4_counterexample :
    computeAutorouterPath "/r" "/r/[id].ts" = some "/:id"
    ∧ stripExt "[id].ts" = "[id]"
    ∧ isMethodFile "[id]" = none
    ∧ ("[id]" : String) ≠ "index"
    ∧ convertSegment "[id]" = ":id"
    ∧ ("/:id" : String) ≠ "/[id]" := by
  refine ⟨rfl, rfl, rfl, ?_, rfl, ?_⟩ <;> decide

/-- C4 (amended): for a file under the Convention B root, the
extension-stripped base name is appended as a final segment exactly when it
is neither `index` nor an HTTP method name, and the composed path is built by
applying the bracket-to-colon segment transformation to **all** segments,
the appended base name included. -/
theorem C4_filename_segment (root file b : String)
    (hpre : (splitSegs root).isPrefixOf (splitSegs file) = true)
    (hlast : ((splitSegs file).drop (splitSegs root).length).getLast? = some b) :
    computeAutorouterPath root file
      = some ("/" ++ String.intercalate "/"
          (((((splitSegs file).drop (splitSegs root).length).dropLast
              ++ (if (isMethodFile (stripExt b)).isNone && stripExt b ≠ "index"
                  then [stripExt b] else [])).map convertSegment).filter
            (fun x => x ≠ ""))) := by
  have hsplit : ∀ (c : Prop) [Decidable c] (l : List String) (x : String),
      (if c then l ++ [x] else l) = l ++ (if c then [x] else []) := by
    intro c _ l x
    split <;> simp
  have hne : ∀ s : String, ("/" ++ s) ≠ "" := by
    intro s h
    have h2 := congrArg String.length h
    rw [String.length_append] at h2
    have hl : ("/" : String).length = 1 := rfl
    have hz : ("" : String).length = 0 := rfl
    omega
  simp only [computeAutorouterPath, hpre, if_true, hlast]
  rw [hsplit]
  rw [if_neg (hne _)]

/-- Witness for C4: the amended statement applied to a concrete
bracket-named file — the appended base name `[id]` is transformed to `:id`. -/
theorem C4_filename_segment_witness :
    computeAutorouterPath "/r" "/r/users/[id].ts" = some "/users/:id" := by
  rw [C4_filename_segment "/r" "/r/users/[id].ts" "[id].ts" rfl rfl]
  rfl

/-- C5: walking up from the route file's directory, every directory up to the
root containing `middleware.ts` contributes its prefix — but the final sort
key `s.split('/').length` gives the root scope `'/'` and a depth-one scope
the same key (both split into two parts), so the stable sort leaves the
deeper `/users` before `/`, although the code's own comment says "Sort
shallow to deep".  Evaluated at the failing input. -/
theorem C5_scope_order :
    findMiddlewareScopes fsEx "/app/users/route.ts" "/app" = ["/users", "/"]
    ∧ scopeSortKey "/" = scopeSortKey "/users"
    ∧ (["/users", "/"] : List String) ≠ ["/", "/users"] := by
  refine ⟨rfl, rfl, ?_⟩
  decide

/-- C1: a node is classified as a route registration iff it is a call
expression whose callee is a property access with member name in the fixed
HTTP-method set and whose first argument is a string literal; and
`analyzeSource` yields exactly one record per such node, in document order of
the single depth-first traversal, with the record's method equal to the
member name and its path equal to the literal's text. -/
theorem C1_route_recognition :
    (∀ (n : TsNode) (m p : String),
        routeCallOf n = some (m, p) ↔
          (∃ base rest, n = TsNode.call (.prop base m) (.strLit p :: rest)
              ∧ m ∈ httpMethodNames))
  ∧ (∀ (ctx : ACtx) (file : List TsNode),
        (analyzeSource ctx file).map (fun r => (r.method, r.path))
          = (preorderList file).filterMap routeCallOf) := by
  constructor
  · intro n m p
    constructor
    · intro h
      cases n with
      | call callee args =>
        cases callee with
        | prop base nm =>
          simp only [routeCallOf] at h
          split at h
          · rename_i hm
            cases args with
            | nil => exact Option.noConfusion h
            | cons a rest =>
              cases a with
              | strLit q =>
                have h' : some (nm, q) = some (m, p) := h
                rw [Option.some.injEq, Prod.mk.injEq] at h'
                obtain ⟨h1, h2⟩ := h'
                subst h1
                subst h2
                exact ⟨base, rest, rfl, List.elem_iff.mp hm⟩
              | ident s => exact Option.noConfusion h
              | numLit k => exact Option.noConfusion h
              | prop o n2 => exact Option.noConfusion h
              | call f a2 => exact Option.noConfusion h
              | newE s2 a2 => exact Option.noConfusion h
              | objLit ps => exact Option.noConfusion h
              | arrow pa b => exact Option.noConfusion h
              | ret e => exact Option.noConfusion h
              | paren e => exact Option.noConfusion h
              | asCast e => exact Option.noConfusion h
              | nonNull e => exact Option.noConfusion h
              | typedVal t => exact Option.noConfusion h
          · exact Option.noConfusion h
        | ident s => simp [routeCallOf] at h
        | strLit s => simp [routeCallOf] at h
        | numLit k => simp [routeCallOf] at h
        | call f a => simp [routeCallOf] at h
        | newE s a => simp [routeCallOf] at h
        | objLit ps => simp [routeCallOf] at h
        | arrow pa b => simp [routeCallOf] at h
        | ret e => simp [routeCallOf] at h
        | paren e => simp [routeCallOf] at h
        | asCast e => simp [routeCallOf] at h
        | nonNull e => simp [routeCallOf] at h
        | typedVal t => simp [routeCallOf] at h
      | ident s => simp [routeCallOf] at h
      | strLit s => simp [routeCallOf] at h
      | numLit k => simp [routeCallOf] at h
      | prop o nm => simp [routeCallOf] at h
      | newE s a => simp [routeCallOf] at h
      | objLit ps => simp [routeCallOf] at h
      | arrow pa b => simp [routeCallOf] at h
      | ret e => simp [routeCallOf] at h
      | paren e => simp [routeCallOf] at h
      | asCast e => simp [routeCallOf] at h
      | nonNull e => simp [routeCallOf] at h
      | typedVal t => simp [routeCallOf] at h
    · rintro ⟨base, rest, rfl, hmem⟩
      simp [routeCallOf, hmem]
  · intro ctx file
    unfold analyzeSource
    rw [List.map_filterMap]
    have hfun : ∀ n : TsNode,
        ((recordOfNode ctx n).map (fun r => (r.method, r.path))) = routeCallOf n := by
      intro n
      cases hrc : routeCallOf n with
      | none => simp only [recordOfNode, hrc, Option.map_none']
      | some mp =>
        obtain ⟨m, p⟩ := mp
        simp only [recordOfNode, hrc, Option.map_some']
    simp only [hfun]

/-- C6: the body-wide explicit content type (the resolved
`ctx.header('content-type', v)` value) is computed once per handler body and
replaces the shape default of **every** json/text/html response record in
that body (in particular every one occurring after the header call); with no
such header call the records keep their shape defaults: `application/json`
for json, `text/plain` for text, `text/html` for html. -/
theorem C6_content_type_override :
    (∀ (ctx : ACtx) (ect : Option String) (pname : Option String) (base : TsNode)
        (args : List TsNode) (rec : RespRec),
        rec ∈ respOfCall ctx ect pname (.call (.prop base "json") args) →
        rec.mediaType = some (ect.getD "application/json"))
  ∧ (∀ (ctx : ACtx) (ect : Option String) (pname : Option String) (base : TsNode)
        (args : List TsNode) (rec : RespRec),
        rec ∈ respOfCall ctx ect pname (.call (.prop base "text") args) →
        rec.mediaType = some (ect.getD "text/plain"))
  ∧ (∀ (ctx : ACtx) (ect : Option String) (pname : Option String) (base : TsNode)
        (args : List TsNode) (rec : RespRec),
        rec ∈ respOfCall ctx ect pname (.call (.prop base "html") args) →
        rec.mediaType = some (ect.getD "text/html"))
  ∧ (∀ (ctx : ACtx) (stmts : List TsNode) (pname : Option String),
        findResponses ctx (some stmts) pname
          = (preorderList stmts).flatMap fun n =>
              respOfCall ctx (findExplicitContentType ctx stmts pname) pname n
                ++ respOfReturn ctx (findExplicitContentType ctx stmts pname) n)
  ∧ findResponses ctxC (some bodyH) (some "c")
      = [⟨some "object", some objSchemaC, none, some "application/xml", none⟩] := by
  refine ⟨?_, ?_, ?_, ?_, rfl⟩
  · intro ctx ect pname base args rec hmem
    simp only [respOfCall] at hmem
    split at hmem
    · split at hmem
      · cases ha : args.get? 0 with
        | none => rw [ha] at hmem; exact absurd hmem (List.not_mem_nil _)
        | some a =>
          rw [ha] at hmem
          obtain ⟨st, rfl⟩ := mem_pushPer hmem
          cases ect <;> rfl
      · rename_i hfalse
        exact absurd trivial hfalse
    · exact absurd hmem (List.not_mem_nil _)
  · intro ctx ect pname base args rec hmem
    simp only [respOfCall] at hmem
    split at hmem
    · split at hmem
      · rename_i hj
        exact absurd hj (by decide)
      · split at hmem
        · obtain ⟨st, rfl⟩ := mem_pushPer hmem
          cases ect <;> rfl
        · rename_i hfalse
          exact absurd trivial hfalse
    · exact absurd hmem (List.not_mem_nil _)
  · intro ctx ect pname base args rec hmem
    simp only [respOfCall] at hmem
    split at hmem
    · split at hmem
      · rename_i hj
        exact absurd hj (by decide)
      · split at hmem
        · rename_i ht
          exact absurd ht (by decide)
        · split at hmem
          · rename_i hb
            exact absurd hb (by decide)
          · split at hmem
            · obtain ⟨st, rfl⟩ := mem_pushPer hmem
              cases ect <;> rfl
            · rename_i hfalse
              exact absurd trivial hfalse
    · exact absurd hmem (List.not_mem_nil _)
  · intro ctx stmts pname
    rfl

/-- Witness for C6: the override applied at a concrete json call with the
explicit content type `application/xml` in scope. -/
theorem C6_content_type_override_witness :
    (⟨some "object", some objSchemaC, none, some "application/xml", none⟩ : RespRec).mediaType
      = some "application/xml" := by
  have h : respOfCall ctxC (some "application/xml") (some "c")
      (.call (.prop (.ident "c") "json") [.typedVal 0])
      = [⟨some "object", some objSchemaC, none, some "application/xml", none⟩] := rfl
  exact C6_content_type_override.1 ctxC (some "application/xml") (some "c") (.ident "c")
    [.typedVal 0] _ (by rw [h]; exact List.mem_singleton.mpr rfl)

/-- The operation the assembler produces for the two-status example file
(`c.json(x, 200)` and `c.json(err, 422)` on route `get /items/:id`). -/
def op7 : Option Operation :=
  (lookupJS (routesToOpenAPI (analyzeSource ctxC file2)).paths "/items/{id}").bind
    (fun ops => lookupJS ops "get")

/-- C7: a status argument statically narrowed to a union of numeric literal
types yields one status per (deduplicated) union member; and a handler
calling `ctx.json(x, 200)` and `ctx.json(err, 422)` yields two
ResponseRecords in discovery order (statuses 200 then 422), with both the
`"200"` and the `"422"` keys present in the assembled Operation's responses
map. -/
theorem C7_multi_status :
    (∀ (ctx : ACtx) (t t1 t2 : Nat) (a b : Int),
        ctx.env t = .union [t1, t2] →
        ctx.env t1 = .numLitT a →
        ctx.env t2 = .numLitT b →
        a ≠ b →
        extractStatuses ctx (.typedVal t) = [a, b])
  ∧ (analyzeSource ctxC file2).map (fun r => r.responses.map RespItem.status) = [[200, 422]]
  ∧ op7.map (fun op =>
        ((lookupJS op.responses "200").isSome, (lookupJS op.responses "422").isSome))
      = some (true, true) := by
  refine ⟨?_, rfl, rfl⟩
  intro ctx t t1 t2 a b h1 h2 h3 hab
  have hba : (a == b) = false := beq_eq_false_iff_ne.mpr hab
  simp [extractStatuses, stripParensAndCasts, typeIdOf, numbersFromType, h1, h2, h3,
    dedupInts, List.contains, hba]
  exact fun he => hab he.symm

/-- Witness for C7: the union-status rule applied to the modelled
`400 | 422` environment. -/
theorem C7_multi_status_witness :
    extractStatuses ctxC (.typedVal 5) = [400, 422] :=
  C7_multi_status.1 ctxC 5 6 7 400 422 rfl rfl rfl (by decide)

/-- Invariant of the assembler's fold: if every operation already in the
paths map has a non-empty responses map, the same holds after folding any
further records (each inserted operation is a `routeToOp`, whose responses
map is never empty). -/
theorem assemblerFoldInvariant :
    ∀ (routes : List RouteInfo) (paths0 : List (String × List (String × Operation))),
      (∀ pe ∈ paths0, ∀ me ∈ pe.2, (me.2 : Operation).responses ≠ []) →
      ∀ pe ∈ routes.foldl
          (fun paths r =>
            insertJS paths (toOpenApiPath r.path)
              (insertJS ((lookupJS paths (toOpenApiPath r.path)).getD []) r.method (routeToOp r)))
          paths0,
        ∀ me ∈ pe.2, me.2.responses ≠ [] := by
  intro routes
  induction routes with
  | nil =>
    intro paths0 h0
    simpa using h0
  | cons r rs ih =>
    intro paths0 h0
    rw [List.foldl_cons]
    apply ih
    intro pe hpe me hme
    rcases mem_insertJS hpe with rfl | hpe2
    · rcases mem_insertJS hme with rfl | hme2
      · exact routeToOp_responses_ne_nil r
      · cases hl : lookupJS paths0 (toOpenApiPath r.path) with
        | none =>
          rw [hl] at hme2
          simp at hme2
        | some l =>
          rw [hl] at hme2
          obtain ⟨p, hp, hp2⟩ := lookupJS_mem hl
          exact h0 p hp me (by rw [hp2]; exact hme2)
    · exact h0 pe hpe2 me hme

/-- C8: every Operation of the assembled document has a present, non-empty
responses map; a record whose collected response list is empty gets the
single synthetic `"200"` entry with description `OK`, carrying the legacy
single-response schema (the record's schema, or the one recovered from its
type text) as `application/json` content when one is present and nothing
otherwise; and the empty record sequence yields a document with an empty
paths map. -/
theorem C8_responses_nonempty :
    (∀ (routes : List RouteInfo) (pe : String × List (String × Operation))
        (me : String × Operation),
        pe ∈ (routesToOpenAPI routes).paths → me ∈ pe.2 → me.2.responses ≠ [])
  ∧ (∀ r : RouteInfo, r.responses = [] →
        (routeToOp r).responses
          = [("200", ⟨"OK", none,
              (match r.responseSchema with
               | some s => some s
               | none => typeTextToSchemaTop r.responseTypeText).map
                (fun s => ("application/json", s))⟩)])
  ∧ (routesToOpenAPI []).paths = [] := by
  refine ⟨?_, ?_, rfl⟩
  · intro routes pe me hpe hme
    exact assemblerFoldInvariant routes [] (by simp) pe hpe me hme
  · intro r h
    simp [routeToOp, h]

/-- Witness for C8: the synthetic-200 branch applied to a record with an
empty collected list and the legacy type text `string`. -/
theorem C8_responses_nonempty_witness :
    (routeToOp rEmpty).responses
      = [("200", ⟨"OK", none, some ("application/json", .prim "string" none false)⟩)] := by
  rw [C8_responses_nonempty.2.1 rEmpty rfl]
  rfl

/-- C9: when several collected records share a status code, the assembled
response entry for that code is the rendering of the **last** such record in
discovery order (JS object assignment overwrites in place), while the
record list itself keeps all records unmerged in discovery order (shown on
the concrete two-records-at-200 handler). -/
theorem C9_last_wins :
    (∀ (r : RouteInfo), r.responses ≠ [] →
      ∀ code : String,
        lookupJS (routeToOp r).responses code
          = ((r.responses.filter (fun it => statusCodeStr it.status == code)).getLast?).map
              renderRespItem)
  ∧ (analyzeSource ctxC file9).map RouteInfo.responses
      = [[⟨200, some objSchemaC, some "application/json", none⟩,
          ⟨200, some (.prim "string" none false), some "text/plain", none⟩]]
  ∧ ((lookupJS (routesToOpenAPI (analyzeSource ctxC file9)).paths "/x").bind
        (fun ops => lookupJS ops "post")).map (fun op => lookupJS op.responses "200")
      = some (some ⟨"OK", none, some ("text/plain", .prim "string" none false)⟩) := by
  refine ⟨?_, rfl, rfl⟩
  intro r h code
  have hni : r.responses.isEmpty = false :=
    Bool.eq_false_iff.mpr (fun ht => h (List.isEmpty_iff.mp ht))
  have hresp : (routeToOp r).responses = buildResponses r.responses := by
    simp [routeToOp, hni]
  rw [hresp, lookupJS_buildResponses]

/-- Witness for C9: of the two status-200 records of `rW`, the assembled
entry is the rendering of the second (content-free) one. -/
theorem C9_last_wins_witness :
    lookupJS (routeToOp rW).responses "200" = some ⟨"OK", none, none⟩ := by
  rw [C9_last_wins.1 rW (List.cons_ne_nil _ _) "200"]
  rfl

/-- C10: every record produced by `analyzeSource` carries as its legacy
fields the type text and schema of the **first** discovered response record
of its handler body (absent when the body has none), and its responses array
is the discovered list with every unresolved status already defaulted to 200
at analysis time (so every element carries a defined numeric status). -/
theorem C10_legacy_fields :
    (∀ (ctx : ACtx) (file : List TsNode) (r : RouteInfo),
        r ∈ analyzeSource ctx file →
        ∃ (body : Option (List TsNode)) (pname : Option String),
          r.responseTypeText = ((findResponses ctx body pname).head?.bind RespRec.text)
          ∧ r.responseSchema = ((findResponses ctx body pname).head?.bind RespRec.schema)
          ∧ r.responses = (findResponses ctx body pname).map
              (fun f => ⟨f.status.getD 200, f.schema, f.mediaType, f.headers⟩))
  ∧ (∀ (ctx : ACtx) (file : List TsNode) (r : RouteInfo) (x : RespItem),
        r ∈ analyzeSource ctx file → x ∈ r.responses →
        ∃ f : RespRec, x = ⟨f.status.getD 200, f.schema, f.mediaType, f.headers⟩)
  ∧ (analyzeSource ctxC fileA).map RouteInfo.responses
      = [[⟨200, some objSchemaC, some "application/json", none⟩]] := by
  have h1 : ∀ (ctx : ACtx) (file : List TsNode) (r : RouteInfo),
      r ∈ analyzeSource ctx file →
      ∃ (body : Option (List TsNode)) (pname : Option String),
        r.responseTypeText = ((findResponses ctx body pname).head?.bind RespRec.text)
        ∧ r.responseSchema = ((findResponses ctx body pname).head?.bind RespRec.schema)
        ∧ r.responses = (findResponses ctx body pname).map
            (fun f => ⟨f.status.getD 200, f.schema, f.mediaType, f.headers⟩) := by
    intro ctx file r h
    rcases List.mem_filterMap.mp h with ⟨n, hn, hrec⟩
    cases hrc : routeCallOf n with
    | none =>
      simp only [recordOfNode, hrc] at hrec
      exact Option.noConfusion hrec
    | some mp =>
      obtain ⟨m, p⟩ := mp
      simp only [recordOfNode, hrc, Option.some.injEq] at hrec
      subst hrec
      exact ⟨_, _, rfl, rfl, rfl⟩
  refine ⟨h1, ?_, rfl⟩
  intro ctx file r x hr hx
  obtain ⟨body, pname, _, _, hmap⟩ := h1 ctx file r hr
  rw [hmap] at hx
  rcases List.mem_map.mp hx with ⟨f, _, hf⟩
  exact ⟨f, hf.symm⟩

/-- Witness for C10: the legacy-field characterization applied to the
single-record analysis of `fileA`. -/
theorem C10_legacy_fields_witness :
    ∃ (body : Option (List TsNode)) (pname : Option String),
      recA.responseTypeText = ((findResponses ctxC body pname).head?.bind RespRec.text)
      ∧ recA.responseSchema = ((findResponses ctxC body pname).head?.bind RespRec.schema)
      ∧ recA.responses = (findResponses ctxC body pname).map
          (fun f => ⟨f.status.getD 200, f.schema, f.mediaType, f.headers⟩) :=
  C10_legacy_fields.1 ctxC fileA recA
    (by
      have h : analyzeSource ctxC fileA = [recA] := rfl
      rw [h]
      exact List.mem_singleton.mpr rfl)
